import Mathlib

/-!
Verification of the virtual-time capture engine of this repository.

The JavaScript sources are embedded shallowly: JS numbers are modelled by
`JSNum` (an exact rational together with `NaN` and the two infinities), pure
functions become Lean functions, and fallible operations return `Except`.
-/

/-- Model of a JavaScript number: `NaN`, the two infinities, or a finite
value, modelled exactly as a rational. -/
inductive JSNum where
  | nan : JSNum
  | posInf : JSNum
  | negInf : JSNum
  | fin : ℚ → JSNum
deriving DecidableEq, Repr

namespace JSNum

/-- `Number.isFinite`. -/
def isFinite : JSNum → Bool
  | .fin _ => true
  | _ => false

/-- `Math.floor` on a JS number. -/
def jsFloor : JSNum → JSNum
  | .fin q => .fin (⌊q⌋ : ℤ)
  | x => x

/-- `Math.max(0, x)` on a JS number (`NaN` propagates, `-Infinity` clamps to 0). -/
def jsMax0 : JSNum → JSNum
  | .nan => .nan
  | .posInf => .posInf
  | .negInf => .fin 0
  | .fin q => .fin (max 0 q)

/-- JS `<` comparison (false whenever either side is `NaN`). -/
def jsLt : JSNum → JSNum → Bool
  | .nan, _ => false
  | _, .nan => false
  | .fin a, .fin b => a < b
  | .fin _, .posInf => true
  | .negInf, .fin _ => true
  | .negInf, .posInf => true
  | _, _ => false

/-- JS `<=` comparison (false whenever either side is `NaN`). -/
def jsLe : JSNum → JSNum → Bool
  | .nan, _ => false
  | _, .nan => false
  | .fin a, .fin b => a ≤ b
  | .fin _, .posInf => true
  | .negInf, _ => true
  | .posInf, .posInf => true
  | _, _ => false

/-- The non-negative integer held by a finite clamped JS number (0 otherwise);
used to read `Math.max(0, Math.floor(x))` back as a natural number. -/
def toNatFloor : JSNum → ℕ
  | .fin q => (⌊q⌋ : ℤ).toNat
  | _ => 0

end JSNum

/-- The body of the `for (let timestamp = 0; timestamp < T; timestamp += S)`
loop of `buildCaptureTimeline`: collects the visited timestamps.  The source
loop terminates because its step `S` is positive at the only call site
(`Math.max(1, Math.floor(intervalMs))`); here the recursion is driven by a
`fuel` bound, and `forTimestamps_fuel_irrel` shows that any fuel of at least
`T - t` (the call site passes `T` with `t = 0`) yields the loop's limit, so
the bound never truncates the loop. -/
def forTimestamps (T S t : ℕ) : ℕ → List ℕ
  | 0 => []
  | fuel + 1 => if t < T then t :: forTimestamps T S (t + S) fuel else []

/-- Any two fuels of at least `T - t` give the same timestamp list when the
step is positive: the fuel bound used in `buildCaptureTimeline` is exact. -/
theorem forTimestamps_fuel_irrel (S : ℕ) (hS : 0 < S) :
    ∀ fuel₁ fuel₂ T t, T - t ≤ fuel₁ → T - t ≤ fuel₂ →
      forTimestamps T S t fuel₁ = forTimestamps T S t fuel₂ := by
  intro fuel₁
  induction fuel₁ with
  | zero =>
    intro fuel₂ T t h₁ h₂
    cases fuel₂ with
    | zero => rfl
    | succ n =>
      simp only [forTimestamps]
      have : ¬ t < T := by omega
      simp [this]
  | succ n ih =>
    intro fuel₂ T t h₁ h₂
    cases fuel₂ with
    | zero =>
      simp only [forTimestamps]
      have : ¬ t < T := by omega
      simp [this]
    | succ m =>
      simp only [forTimestamps]
      by_cases h : t < T
      · simp only [h, if_true]
        rw [ih m T (t + S) (by omega) (by omega)]
      · simp [h]

/-- Shallow embedding of `buildCaptureTimeline(targetTimeMs, intervalMs)` from
`scripts/capture-animation-screenshot.js`.  Timestamps pushed by the source are
non-negative integers, so the timeline is a `List ℕ`. -/
def buildCaptureTimeline (targetTimeMs intervalMs : JSNum) : List ℕ :=
  let sanitizedTarget := JSNum.jsMax0 (JSNum.jsFloor targetTimeMs)
  if ¬ sanitizedTarget.isFinite then [0]
  else
    let target := sanitizedTarget.toNatFloor
    if ¬ intervalMs.isFinite ∨ JSNum.jsLe intervalMs (.fin 0) then [target]
    else
      let sanitizedInterval := max 1 (JSNum.jsFloor intervalMs).toNatFloor
      let timeline := forTimestamps target sanitizedInterval 0 target
      if timeline = [] ∨ timeline.getLast? ≠ some target then timeline ++ [target]
      else timeline

/-- An element reported by `getLast?` is a member of the list. -/
theorem mem_of_getLast?_eq {α : Type} {l : List α} {x : α} (h : l.getLast? = some x) :
    x ∈ l := by
  cases l with
  | nil => simp at h
  | cons a t =>
    have hne : a :: t ≠ [] := by simp
    rw [List.getLast?_eq_getLast _ hne, Option.some_inj] at h
    rw [← h]
    exact List.getLast_mem hne

/-- An element reported by `head?` is a member of the list. -/
theorem mem_of_head?_eq {α : Type} {l : List α} {x : α} (h : l.head? = some x) :
    x ∈ l := by
  cases l with
  | nil => simp at h
  | cons a t =>
    simp only [List.head?_cons, Option.some_inj] at h
    rw [← h]
    exact List.mem_cons_self a t

/-- Every timestamp visited by the loop lies in `[t, T)`. -/
theorem forTimestamps_mem_bounds (T S : ℕ) :
    ∀ fuel t x, x ∈ forTimestamps T S t fuel → t ≤ x ∧ x < T := by
  intro fuel
  induction fuel with
  | zero => intro t x hx; simp [forTimestamps] at hx
  | succ n ih =>
    intro t x hx
    simp only [forTimestamps] at hx
    by_cases h : t < T
    · simp only [h, if_true, List.mem_cons] at hx
      rcases hx with rfl | hx
      · exact ⟨le_refl x, h⟩
      · have := ih (t + S) x hx
        omega
    · simp [h] at hx

/-- The loop's timestamps are strictly increasing when the step is positive. -/
theorem forTimestamps_chain (T S : ℕ) (hS : 0 < S) :
    ∀ fuel t, List.Chain' (· < ·) (forTimestamps T S t fuel) := by
  intro fuel
  induction fuel with
  | zero => intro t; simp [forTimestamps]
  | succ n ih =>
    intro t
    simp only [forTimestamps]
    by_cases h : t < T
    · simp only [h, if_true]
      refine List.chain'_cons'.2 ⟨?_, ih (t + S)⟩
      intro y hy
      have hmem : y ∈ forTimestamps T S (t + S) n :=
        mem_of_head?_eq (Option.mem_def.mp hy)
      have := forTimestamps_mem_bounds T S n (t + S) y hmem
      omega
    · simp [h]

/-- When the interval is a positive finite number, `buildCaptureTimeline`
reduces to the loop's timestamps followed by a final push of the sanitized
target (the push condition always fires there, because every loop timestamp
is strictly below the target). -/
theorem buildCaptureTimeline_pos (q r : ℚ) (hr : 0 < r) :
    buildCaptureTimeline (.fin q) (.fin r) =
      forTimestamps ⌊q⌋.toNat (max 1 ⌊r⌋.toNat) 0 ⌊q⌋.toNat ++ [⌊q⌋.toNat] := by
  have hsanN : JSNum.jsMax0 (JSNum.jsFloor (.fin q)) = .fin ((max 0 ⌊q⌋ : ℤ) : ℚ) := by
    simp only [JSNum.jsFloor, JSNum.jsMax0]
    congr 1
    push_cast
    rfl
  have hsan : (JSNum.fin ((max 0 ⌊q⌋ : ℤ) : ℚ)).toNatFloor = ⌊q⌋.toNat := by
    simp only [JSNum.toNatFloor, Int.floor_intCast]
    omega
  have hSx : (JSNum.jsFloor (.fin r)).toNatFloor = ⌊r⌋.toNat := by
    simp only [JSNum.jsFloor, JSNum.toNatFloor, Int.floor_intCast]
  have hle : JSNum.jsLe (.fin r) (.fin 0) = false := by
    simp only [JSNum.jsLe, decide_eq_false_iff_not]
    exact not_le.2 hr
  simp only [buildCaptureTimeline]
  rw [hsanN, hle, hsan, hSx]
  rw [if_neg (by simp [JSNum.isFinite])]
  rw [if_neg (by simp [JSNum.isFinite])]
  set T := ⌊q⌋.toNat with hT
  set S := max 1 ⌊r⌋.toNat with hSdef
  have hcond : forTimestamps T S 0 T = [] ∨
      (forTimestamps T S 0 T).getLast? ≠ some T := by
    cases hl : forTimestamps T S 0 T with
    | nil => exact Or.inl rfl
    | cons a l =>
      right
      intro hlast
      have hmem : T ∈ forTimestamps T S 0 T := by
        rw [hl]
        exact mem_of_getLast?_eq hlast
      have := forTimestamps_mem_bounds T S T 0 T hmem
      omega
  rw [if_pos hcond]

/-- C1: for finite `targetMs` and finite `intervalMs > 0`, the capture
timeline is strictly increasing, starts at 0 unless the floored/clamped
target is 0, and ends exactly at the floored/clamped target; in particular
`buildCaptureTimeline 450 200 = [0, 200, 400, 450]`.  (The timeline is a
`List ℕ`, so its entries are non-negative integers by construction.) -/
theorem buildCaptureTimeline_increasing_ends_at_target (q r : ℚ) (hr : 0 < r) :
    List.Chain' (· < ·) (buildCaptureTimeline (.fin q) (.fin r)) ∧
    (⌊q⌋.toNat ≠ 0 → (buildCaptureTimeline (.fin q) (.fin r)).head? = some 0) ∧
    (buildCaptureTimeline (.fin q) (.fin r)).getLast? = some ⌊q⌋.toNat ∧
    buildCaptureTimeline (.fin 450) (.fin 200) = [0, 200, 400, 450] := by
  rw [buildCaptureTimeline_pos q r hr]
  set T := ⌊q⌋.toNat with hT
  set S := max 1 ⌊r⌋.toNat with hSdef
  have hS : 0 < S := by omega
  refine ⟨?_, ?_, ?_, by decide⟩
  · rw [List.chain'_append]
    refine ⟨forTimestamps_chain T S hS T 0, List.chain'_singleton T, ?_⟩
    intro x hx y hy
    simp only [List.head?_cons, Option.mem_def, Option.some_inj] at hy
    subst hy
    have hmem : x ∈ forTimestamps T S 0 T :=
      mem_of_getLast?_eq (Option.mem_def.mp hx)
    exact (forTimestamps_mem_bounds T S T 0 x hmem).2
  · intro hTne
    obtain ⟨n, hn⟩ : ∃ n, T = n + 1 := ⟨T - 1, by omega⟩
    rw [hn]
    simp [forTimestamps]
  · exact List.getLast?_concat _

/-- Witness for C1 at `(450, 200)`. -/
theorem buildCaptureTimeline_increasing_ends_at_target_witness :
    (0 : ℚ) < 200 ∧
    (List.Chain' (· < ·) (buildCaptureTimeline (.fin 450) (.fin 200)) ∧
    (⌊(450 : ℚ)⌋.toNat ≠ 0 → (buildCaptureTimeline (.fin 450) (.fin 200)).head? = some 0) ∧
    (buildCaptureTimeline (.fin 450) (.fin 200)).getLast? = some ⌊(450 : ℚ)⌋.toNat ∧
    buildCaptureTimeline (.fin 450) (.fin 200) = [0, 200, 400, 450]) :=
  ⟨by norm_num, buildCaptureTimeline_increasing_ends_at_target 450 200 (by norm_num)⟩

/-- C2 counterexample: for `targetMs = -5` and `intervalMs = 0` the code
returns `[0]`, not the single-element sequence `[targetMs] = [-5]` demanded
by the claim. -/
theorem buildCaptureTimeline_single_counterexample :
    buildCaptureTimeline (.fin (-5)) (.fin 0) = [0] ∧
    (buildCaptureTimeline (.fin (-5)) (.fin 0)).map (fun n => (n : ℚ)) ≠ [(-5 : ℚ)] := by
  have h0 : buildCaptureTimeline (.fin (-5)) (.fin 0) = [0] := by decide
  refine ⟨h0, ?_⟩
  rw [h0]
  intro h
  norm_num at h

/-- For any interval that is not a positive finite number,
`buildCaptureTimeline` returns only the sanitized target. -/
theorem buildCaptureTimeline_invalid_interval (target interval : JSNum)
    (h : ¬(interval.isFinite = true ∧ JSNum.jsLt (.fin 0) interval = true)) :
    buildCaptureTimeline target interval =
      [(JSNum.jsMax0 (JSNum.jsFloor target)).toNatFloor] := by
  cases interval with
  | nan =>
    cases target <;>
      simp [buildCaptureTimeline, JSNum.jsFloor, JSNum.jsMax0, JSNum.isFinite, JSNum.jsLe,
        JSNum.toNatFloor]
  | posInf =>
    cases target <;>
      simp [buildCaptureTimeline, JSNum.jsFloor, JSNum.jsMax0, JSNum.isFinite, JSNum.jsLe,
        JSNum.toNatFloor]
  | negInf =>
    cases target <;>
      simp [buildCaptureTimeline, JSNum.jsFloor, JSNum.jsMax0, JSNum.isFinite, JSNum.jsLe,
        JSNum.toNatFloor]
  | fin r =>
    have hle : JSNum.jsLe (.fin r) (.fin 0) = true := by
      simp only [JSNum.isFinite, true_and, JSNum.jsLt, decide_eq_true_eq] at h
      simp only [JSNum.jsLe, decide_eq_true_eq]
      exact le_of_not_lt h
    cases target <;>
      simp [buildCaptureTimeline, JSNum.jsFloor, JSNum.jsMax0, JSNum.isFinite, hle,
        JSNum.toNatFloor]

/-- C2 amended: for every `targetMs` and every `intervalMs` that is not a
positive finite number, the result is the single-element sequence holding
`targetMs` floored and clamped to a non-negative integer (so `[targetMs]`
itself exactly when `targetMs` is a non-negative integer, and `[0]` when the
floored/clamped value is not finite); in particular `build(400, 0) = [400]`
and `build(400, NaN) = [400]`. -/
theorem buildCaptureTimeline_single_amended (target interval : JSNum)
    (h : ¬(interval.isFinite = true ∧ JSNum.jsLt (.fin 0) interval = true)) :
    buildCaptureTimeline target interval =
      [(JSNum.jsMax0 (JSNum.jsFloor target)).toNatFloor] ∧
    buildCaptureTimeline (.fin 400) (.fin 0) = [400] ∧
    buildCaptureTimeline (.fin 400) .nan = [400] :=
  ⟨buildCaptureTimeline_invalid_interval target interval h, by decide, by decide⟩

/-- Witness for the amended C2 at `targetMs = 400`, `intervalMs = 0`. -/
theorem buildCaptureTimeline_single_amended_witness :
    ¬((JSNum.fin 0).isFinite = true ∧ JSNum.jsLt (.fin 0) (.fin 0) = true) ∧
    (buildCaptureTimeline (.fin 400) (.fin 0) =
      [(JSNum.jsMax0 (JSNum.jsFloor (.fin 400))).toNatFloor] ∧
    buildCaptureTimeline (.fin 400) (.fin 0) = [400] ∧
    buildCaptureTimeline (.fin 400) .nan = [400]) :=
  ⟨by decide, buildCaptureTimeline_single_amended (.fin 400) (.fin 0) (by decide)⟩

/-- Reading the sanitized target of a finite `targetMs` back as a natural
number gives the floor clamped at zero. -/
theorem sanitizedTarget_fin (q : ℚ) :
    (JSNum.jsMax0 (JSNum.jsFloor (.fin q))).toNatFloor = ⌊q⌋.toNat := by
  have hsanN : JSNum.jsMax0 (JSNum.jsFloor (.fin q)) = .fin ((max 0 ⌊q⌋ : ℤ) : ℚ) := by
    simp only [JSNum.jsFloor, JSNum.jsMax0]
    congr 1
    push_cast
    rfl
  rw [hsanN]
  simp only [JSNum.toNatFloor, Int.floor_intCast]
  omega

/-- For a finite target, the capture timeline is pairwise increasing, bounded
by the sanitized target, and ends exactly at the sanitized target — for every
interval, valid or not. -/
theorem buildCaptureTimeline_fin_spec (q : ℚ) (interval : JSNum) :
    List.Pairwise (· < ·) (buildCaptureTimeline (.fin q) interval) ∧
    (∀ x ∈ buildCaptureTimeline (.fin q) interval, x ≤ ⌊q⌋.toNat) ∧
    (buildCaptureTimeline (.fin q) interval).getLast? = some ⌊q⌋.toNat := by
  by_cases hval : interval.isFinite = true ∧ JSNum.jsLt (.fin 0) interval = true
  · obtain ⟨hfin, hlt⟩ := hval
    obtain ⟨r, rfl⟩ : ∃ r, interval = .fin r := by
      cases interval <;> simp [JSNum.isFinite] at hfin ⊢
    have hr : 0 < r := by
      simpa [JSNum.jsLt] using hlt
    rw [buildCaptureTimeline_pos q r hr]
    set T := ⌊q⌋.toNat with hT
    set S := max 1 ⌊r⌋.toNat with hSdef
    have hS : 0 < S := by omega
    refine ⟨?_, ?_, List.getLast?_concat _⟩
    · rw [← List.chain'_iff_pairwise, List.chain'_append]
      refine ⟨forTimestamps_chain T S hS T 0, List.chain'_singleton T, ?_⟩
      intro x hx y hy
      simp only [List.head?_cons, Option.mem_def, Option.some_inj] at hy
      subst hy
      exact (forTimestamps_mem_bounds T S T 0 x
        (mem_of_getLast?_eq (Option.mem_def.mp hx))).2
    · intro x hx
      rw [List.mem_append] at hx
      rcases hx with hx | hx
      · exact le_of_lt (forTimestamps_mem_bounds T S T 0 x hx).2
      · simp only [List.mem_singleton] at hx
        omega
  · rw [buildCaptureTimeline_invalid_interval _ _ hval, sanitizedTarget_fin]
    refine ⟨List.pairwise_singleton _ _, ?_, rfl⟩
    intro x hx
    simp only [List.mem_singleton] at hx
    omega

/-- The advance deltas issued by the capture loop of `captureAnimationFile`:
for each timeline entry the loop computes `delta = timestamp - current` and
issues an advance only when `delta > 0`, then moves `current` to the entry.
(Timeline entries are natural numbers, so the source's
`Math.max(0, Math.round(t))` normalization is the identity on them.) -/
def loopAdvances (cur : ℤ) : List ℕ → List ℤ
  | [] => []
  | t :: ts =>
    let delta := (t : ℤ) - cur
    if 0 < delta then delta :: loopAdvances (t : ℤ) ts else loopAdvances cur ts

/-- Every advance issued by the capture loop is strictly positive when the
timeline is increasing and starts at or above the starting virtual time. -/
theorem loopAdvances_all_pos :
    ∀ (ts : List ℕ) (cur : ℤ), List.Pairwise (· < ·) ts →
      (∀ x ∈ ts, cur ≤ (x : ℤ)) → ∀ d ∈ loopAdvances cur ts, 0 < d := by
  intro ts
  induction ts with
  | nil => intro cur _ _ d hd; simp [loopAdvances] at hd
  | cons t ts ih =>
    intro cur hpw hle d hd
    simp only [loopAdvances] at hd
    rw [List.pairwise_cons] at hpw
    by_cases hδ : 0 < (t : ℤ) - cur
    · simp only [hδ, if_true, List.mem_cons] at hd
      rcases hd with rfl | hd
      · exact hδ
      · refine ih (t : ℤ) hpw.2 ?_ d hd
        intro x hx
        exact_mod_cast le_of_lt (hpw.1 x hx)
    · simp only [hδ, if_false] at hd
      refine ih cur hpw.2 ?_ d hd
      intro x hx
      exact hle x (List.mem_cons_of_mem _ hx)

/-- The capture loop's advances telescope: the final virtual time equals the
last timeline entry (or the starting time for an empty timeline). -/
theorem loopAdvances_sum :
    ∀ (ts : List ℕ) (cur : ℤ), List.Pairwise (· < ·) ts →
      (∀ x ∈ ts, cur ≤ (x : ℤ)) →
      cur + (loopAdvances cur ts).sum =
        (ts.getLast?.map (fun n : ℕ => (n : ℤ))).getD cur := by
  intro ts
  induction ts with
  | nil => intro cur _ _; simp [loopAdvances]
  | cons t ts ih =>
    intro cur hpw hle
    rw [List.pairwise_cons] at hpw
    have h1 : ∀ x ∈ ts, (t : ℤ) ≤ (x : ℤ) :=
      fun x hx => le_of_lt (by exact_mod_cast hpw.1 x hx)
    simp only [loopAdvances]
    by_cases hδ : 0 < (t : ℤ) - cur
    · simp only [hδ, if_true, List.sum_cons]
      have hrec := ih (t : ℤ) hpw.2 h1
      cases ts with
      | nil =>
        simp only [loopAdvances, List.sum_nil, List.getLast?_singleton,
          Option.map_some', Option.getD_some]
        omega
      | cons u us =>
        obtain ⟨L, hL⟩ : ∃ L, (u :: us).getLast? = some L :=
          ⟨_, List.getLast?_eq_getLast _ (by simp)⟩
        rw [hL] at hrec
        rw [List.getLast?_cons_cons, hL]
        simp only [Option.map_some', Option.getD_some] at hrec ⊢
        omega
    · have hcur : cur = (t : ℤ) :=
        le_antisymm (hle t (List.mem_cons_self t ts)) (by omega)
      simp only [hδ, if_false]
      have hrec := ih cur hpw.2 (fun x hx => hcur ▸ h1 x hx)
      cases ts with
      | nil =>
        simp only [loopAdvances, List.sum_nil, List.getLast?_singleton,
          Option.map_some', Option.getD_some]
        omega
      | cons u us =>
        obtain ⟨L, hL⟩ : ∃ L, (u :: us).getLast? = some L :=
          ⟨_, List.getLast?_eq_getLast _ (by simp)⟩
        rw [hL] at hrec
        rw [List.getLast?_cons_cons, hL]
        exact hrec

/-- Partial sums of the capture loop's advances never push the virtual time
past an upper bound of the timeline. -/
theorem loopAdvances_partial_le (B : ℤ) :
    ∀ (ts : List ℕ) (cur : ℤ), (∀ x ∈ ts, (x : ℤ) ≤ B) → cur ≤ B →
      ∀ n, cur + ((loopAdvances cur ts).take n).sum ≤ B := by
  intro ts
  induction ts with
  | nil => intro cur _ hcur n; simp [loopAdvances, hcur]
  | cons t ts ih =>
    intro cur hB hcur n
    simp only [loopAdvances]
    by_cases hδ : 0 < (t : ℤ) - cur
    · simp only [hδ, if_true]
      cases n with
      | zero => simpa using hcur
      | succ m =>
        rw [List.take_succ_cons, List.sum_cons]
        have := ih (t : ℤ) (fun x hx => hB x (List.mem_cons_of_mem _ hx))
          (hB t (List.mem_cons_self t ts)) m
        omega
    · simp only [hδ, if_false]
      exact ih cur (fun x hx => hB x (List.mem_cons_of_mem _ hx)) hcur n

/-- Prefix sums of a list of non-negative integers are monotone. -/
theorem take_sum_mono :
    ∀ (l : List ℤ), (∀ d ∈ l, 0 ≤ d) → ∀ n, (l.take n).sum ≤ (l.take (n + 1)).sum := by
  intro l
  induction l with
  | nil => intro _ n; simp
  | cons a t ih =>
    intro h n
    cases n with
    | zero =>
      simp only [List.take_zero, List.sum_nil, List.take_succ_cons, List.take_zero,
        List.sum_cons, List.sum_nil, add_zero]
      exact h a (List.mem_cons_self a t)
    | succ m =>
      simp only [List.take_succ_cons, List.sum_cons]
      have := ih (fun d hd => h d (List.mem_cons_of_mem _ hd)) m
      omega

/-- C9: over the capture loop of `captureAnimationFile` run on the timeline
`buildCaptureTimeline(targetMs, intervalMs)` for a finite `targetMs`, every
issued advance is positive (hence non-negative), the cumulative virtual time
advanced is monotonically non-decreasing, it never exceeds the configured
(floored/clamped) target, each advance is bounded by the remaining distance
to the target, and on completion the cumulative total equals the target
exactly. -/
theorem captureLoop_virtual_time_invariants (q : ℚ) (interval : JSNum) :
    (∀ d ∈ loopAdvances 0 (buildCaptureTimeline (.fin q) interval), 0 < d) ∧
    (∀ n, ((loopAdvances 0 (buildCaptureTimeline (.fin q) interval)).take n).sum ≤
      ((loopAdvances 0 (buildCaptureTimeline (.fin q) interval)).take (n + 1)).sum) ∧
    (∀ n, ((loopAdvances 0 (buildCaptureTimeline (.fin q) interval)).take n).sum ≤
      (⌊q⌋.toNat : ℤ)) ∧
    (∀ n d, (loopAdvances 0 (buildCaptureTimeline (.fin q) interval))[n]? = some d →
      d ≤ (⌊q⌋.toNat : ℤ) -
        ((loopAdvances 0 (buildCaptureTimeline (.fin q) interval)).take n).sum) ∧
    (loopAdvances 0 (buildCaptureTimeline (.fin q) interval)).sum = (⌊q⌋.toNat : ℤ) := by
  obtain ⟨hpw, hub, hlast⟩ := buildCaptureTimeline_fin_spec q interval
  have hlb : ∀ x ∈ buildCaptureTimeline (.fin q) interval, (0 : ℤ) ≤ (x : ℤ) :=
    fun x _ => Int.ofNat_nonneg x
  have hpos := loopAdvances_all_pos _ 0 hpw hlb
  have hsum := loopAdvances_sum _ 0 hpw hlb
  rw [hlast] at hsum
  simp only [Option.map_some', Option.getD_some, zero_add] at hsum
  have hpartial : ∀ n,
      ((loopAdvances 0 (buildCaptureTimeline (.fin q) interval)).take n).sum ≤
        (⌊q⌋.toNat : ℤ) := by
    intro n
    have := loopAdvances_partial_le (⌊q⌋.toNat : ℤ) _ 0
      (fun x hx => by exact_mod_cast hub x hx) (Int.ofNat_nonneg _) n
    omega
  refine ⟨hpos, ?_, hpartial, ?_, hsum⟩
  · exact take_sum_mono _ (fun d hd => le_of_lt (hpos d hd))
  · intro n d hd
    have htake : ((loopAdvances 0 (buildCaptureTimeline (.fin q) interval)).take
        (n + 1)).sum =
        ((loopAdvances 0 (buildCaptureTimeline (.fin q) interval)).take n).sum + d := by
      rw [List.take_succ, hd]
      simp
    have := hpartial (n + 1)
    omega

/-- Witness for C9 at `(450, 200)`: the loop's advances sum to exactly the
target. -/
theorem captureLoop_virtual_time_invariants_witness :
    (loopAdvances 0 (buildCaptureTimeline (.fin 450) (.fin 200))).sum =
      (⌊(450 : ℚ)⌋.toNat : ℤ) :=
  (captureLoop_virtual_time_invariants 450 (.fin 200)).2.2.2.2

/-- Bootstrap-wait configuration slice used by `waitForAnimationBootstrap`
(from the capture config; all three values are finite numbers once
`validateCaptureConfig` has passed, hence modelled as rationals). -/
structure BootstrapConfig where
  minInitialRealtimeWaitMs : ℚ
  maxInitialRealtimeWaitMs : ℚ
  minRafTicksBeforeVirtualTime : ℚ
deriving DecidableEq, Repr

/-- A JavaScript error as observed by the waiter: only its (possibly absent)
`message` matters to the control flow. -/
structure JsError where
  message : Option String
deriving DecidableEq, Repr

/-- Whether `needle` occurs at the start of `hay`. -/
def startsSeq : List Char → List Char → Bool
  | [], _ => true
  | _ :: _, [] => false
  | a :: as, b :: bs => a == b && startsSeq as bs

/-- Whether `needle` occurs anywhere inside `hay`. -/
def containsSeq (needle : List Char) : List Char → Bool
  | [] => startsSeq needle []
  | c :: rest => startsSeq needle (c :: rest) || containsSeq needle rest

/-- The source's `/Timeout/i.test(message)`: a case-insensitive search for
the word `Timeout` anywhere in the message (ASCII case folding, which covers
the driver's timeout messages). -/
def regexTimeoutTest (msg : String) : Bool :=
  containsSeq "timeout".toList (msg.toList.map Char.toLower)

/-- Shallow embedding of `waitForAnimationBootstrap(page, config)`.  The two
real-time waits have no observable outcome; the only external input is the
result of `page.waitForFunction` (the RAF tick threshold wait), supplied as
`waitResult`: `.ok` if the threshold was reached in time, `.error e` if the
wait threw `e` — a timeout error when the threshold was unreachable within
the remaining budget. -/
def waitForAnimationBootstrap (config : BootstrapConfig)
    (waitResult : Except JsError Unit) : Except JsError Unit :=
  if config.maxInitialRealtimeWaitMs ≤ 0 then .ok ()
  else
    let initialWait := min config.minInitialRealtimeWaitMs config.maxInitialRealtimeWaitMs
    let remainingBudget := max 0 (config.maxInitialRealtimeWaitMs - initialWait)
    if remainingBudget = 0 ∨ config.minRafTicksBeforeVirtualTime ≤ 0 then .ok ()
    else
      match waitResult with
      | .ok _ => .ok ()
      | .error e =>
        if ¬ regexTimeoutTest (e.message.getD "") then .error e else .ok ()

/-- C8: `waitForAnimationBootstrap` never fails because the tick threshold is
unreachable — a timeout error from the bounded wait is swallowed and the
waiter returns normally; an error propagates only if it is not a timeout, in
which case it is the wait's own error passed through unchanged; and a
successful wait returns normally. -/
theorem waitForAnimationBootstrap_soft_timeout :
    (∀ (config : BootstrapConfig) (e : JsError),
      regexTimeoutTest (e.message.getD "") = true →
      waitForAnimationBootstrap config (.error e) = .ok ()) ∧
    (∀ (config : BootstrapConfig) (res : Except JsError Unit) (e : JsError),
      waitForAnimationBootstrap config res = .error e →
      res = .error e ∧ regexTimeoutTest (e.message.getD "") = false) ∧
    (∀ (config : BootstrapConfig), waitForAnimationBootstrap config (.ok ()) = .ok ()) := by
  refine ⟨?_, ?_, ?_⟩
  · intro config e htm
    simp [waitForAnimationBootstrap, htm]
  · intro config res e herr
    simp only [waitForAnimationBootstrap] at herr
    split at herr
    · exact absurd herr (by simp)
    · split at herr
      · exact absurd herr (by simp)
      · cases res with
        | ok u => exact absurd herr (by simp)
        | error e2 =>
          by_cases hni : regexTimeoutTest (e2.message.getD "") = true
          · simp [hni] at herr
          · simp [hni] at herr
            subst herr
            exact ⟨rfl, by simpa using hni⟩
  · intro config
    simp [waitForAnimationBootstrap]

/-- Witness for C8: the default bootstrap bounds with a driver timeout error
are swallowed into a normal return. -/
theorem waitForAnimationBootstrap_soft_timeout_witness :
    regexTimeoutTest ((JsError.mk (some "Timeout 880ms exceeded.")).message.getD "") =
      true ∧
    waitForAnimationBootstrap (BootstrapConfig.mk 120 1000 30)
      (.error (JsError.mk (some "Timeout 880ms exceeded."))) = .ok () :=
  ⟨by decide, waitForAnimationBootstrap_soft_timeout.1 (BootstrapConfig.mk 120 1000 30)
    (JsError.mk (some "Timeout 880ms exceeded.")) (by decide)⟩

/-- The source's `HTML_FILE_PATTERN = /\.html?$/i` test: the name ends in
`.html` or `.htm`, case-insensitively. -/
def htmlFilePatternTest (s : String) : Bool :=
  s.toLower.endsWith ".html" || s.toLower.endsWith ".htm"

/-- Shallow embedding of `resolveAnimationPattern(args)`.  `sep` is the
platform path separator `path.sep`. -/
def resolveAnimationPattern (sep : Char) (args : List String) : Except String String :=
  match args with
  | [] =>
    .error "Expected the HTML file name as the first argument."
  | _ :: _ :: _ =>
    .error "Received unexpected extra arguments. Provide only the HTML file name or pattern to capture."
  | [animationPattern] =>
    if animationPattern.toList.contains '/' || animationPattern.toList.contains sep then
      .error "Provide only the HTML file name, not a path."
    else
      let validationSample := String.mk (animationPattern.toList.map
        (fun c => if c = '*' || c = '?' then 'a' else c))
      if ¬ htmlFilePatternTest validationSample then
        .error "The argument does not look like an HTML file. Provide a file ending in .html or .htm."
      else
        .ok animationPattern

/-- The capture configuration assembled by `buildCaptureConfig` (defaults
from `DEFAULT_CAPTURE_CONFIG`; the directory fields are omitted as they are
constants irrelevant to the claims). -/
structure CaptureConfig where
  animationPattern : String
  browserChannel : Option String
  browserExecutablePath : Option String
  targetTimeMs : ℚ
  frameCaptureIntervalMs : ℚ
  interstepRealtimeWaitMs : ℚ
  postVirtualTimeWaitMs : ℚ
  minInitialRealtimeWaitMs : ℚ
  maxInitialRealtimeWaitMs : ℚ
  minRafTicksBeforeVirtualTime : ℚ
deriving DecidableEq, Repr

/-- Shallow embedding of `buildCaptureConfig(argv, env)`: resolves the
animation pattern first (so bad arguments throw here), then freezes the
defaults together with the environment-supplied browser overrides. -/
def buildCaptureConfig (sep : Char) (argv : List String)
    (browserChannelEnv browserExecutableEnv : Option String) :
    Except String CaptureConfig :=
  (resolveAnimationPattern sep argv).map (fun p =>
    { animationPattern := p
      browserChannel := browserChannelEnv
      browserExecutablePath := browserExecutableEnv
      targetTimeMs := 4000
      frameCaptureIntervalMs := 200
      interstepRealtimeWaitMs := 50
      postVirtualTimeWaitMs := 1000
      minInitialRealtimeWaitMs := 120
      maxInitialRealtimeWaitMs := 1000
      minRafTicksBeforeVirtualTime := 30 })

/-- Shallow embedding of `validateCaptureConfig(config)`.  The two
`assertFiniteNumber` checks hold by construction here because the modelled
config stores exact rationals. -/
def validateCaptureConfig (config : CaptureConfig) : Except String Unit :=
  if config.minInitialRealtimeWaitMs ≤ 0 then
    .error "Expected config.minInitialRealtimeWaitMs to be greater than 0."
  else if config.maxInitialRealtimeWaitMs ≤ 0 then
    .error "Expected config.maxInitialRealtimeWaitMs to be greater than 0."
  else if config.maxInitialRealtimeWaitMs < config.minInitialRealtimeWaitMs then
    .error "Expected config.maxInitialRealtimeWaitMs to be at least config.minInitialRealtimeWaitMs."
  else
    .ok ()

/-- Externally visible resource actions of `runCaptureWorkflow`, in program
order. -/
inductive WorkflowEvent where
  | ensuredExampleDir : WorkflowEvent
  | resolvedFiles : WorkflowEvent
  | madeOutputDir : WorkflowEvent
  | loadedChromium : WorkflowEvent
  | launchedBrowser : WorkflowEvent
  | createdContext : String → WorkflowEvent
  | capturedFile : String → WorkflowEvent
  | closedBrowser : WorkflowEvent
deriving DecidableEq, Repr

/-- Outcomes of the effectful steps of `runCaptureWorkflow`, supplied by the
environment. -/
structure WorkflowEnv where
  ensureDirResult : Except String Unit
  resolveFilesResult : Except String (List String)
  mkdirResult : Except String Unit
  loadChromiumResult : Except String Unit
  launchResult : Except String Unit
  captureResult : String → Except String (List String)

/-- Shallow embedding of the control flow of `runCaptureWorkflow()`: each
stage runs only if every earlier stage succeeded, a failed stage sets exit
code 1, and the per-file loop records context creation and capture results.
The returned pair is the process exit code and the ordered list of
externally visible resource actions. -/
def runCaptureWorkflow (sep : Char) (argv : List String)
    (browserChannelEnv browserExecutableEnv : Option String)
    (env : WorkflowEnv) : ℕ × List WorkflowEvent :=
  match (buildCaptureConfig sep argv browserChannelEnv browserExecutableEnv).bind
      (fun c => (validateCaptureConfig c).map (fun _ => c)) with
  | .error _ => (1, [])
  | .ok _ =>
    match env.ensureDirResult with
    | .error _ => (1, [])
    | .ok _ =>
      match env.resolveFilesResult with
      | .error _ => (1, [.ensuredExampleDir])
      | .ok files =>
        match env.mkdirResult with
        | .error _ => (1, [.ensuredExampleDir, .resolvedFiles])
        | .ok _ =>
          match env.loadChromiumResult with
          | .error _ => (1, [.ensuredExampleDir, .resolvedFiles, .madeOutputDir])
          | .ok _ =>
            match env.launchResult with
            | .error _ =>
              (1, [.ensuredExampleDir, .resolvedFiles, .madeOutputDir, .loadedChromium])
            | .ok _ =>
              let perFile := files.map (fun f =>
                match env.captureResult f with
                | .ok _ => ([WorkflowEvent.createdContext f, .capturedFile f], false)
                | .error _ => ([WorkflowEvent.createdContext f], true))
              let events :=
                [WorkflowEvent.ensuredExampleDir, .resolvedFiles, .madeOutputDir,
                  .loadedChromium, .launchedBrowser] ++
                (perFile.map Prod.fst).foldr (· ++ ·) [] ++ [.closedBrowser]
              let hasFailures := (perFile.map Prod.snd).any id
              (if hasFailures then 1 else 0, events)

/-- C7: zero arguments, more than one argument, or an argument containing a
path separator make `resolveAnimationPattern` throw, and the whole workflow
then stops during configuration building with exit code 1 and an empty
resource-action trace — in particular no browser is launched and no browser
context is created. -/
theorem resolveAnimationPattern_rejects_before_launch (sep : Char)
    (argv : List String) (benv eenv : Option String) (env : WorkflowEnv)
    (h : argv = [] ∨ 1 < argv.length ∨
      ∃ p, argv = [p] ∧ ('/' ∈ p.toList ∨ sep ∈ p.toList)) :
    (∃ msg, resolveAnimationPattern sep argv = .error msg) ∧
    runCaptureWorkflow sep argv benv eenv env = (1, []) ∧
    WorkflowEvent.launchedBrowser ∉ (runCaptureWorkflow sep argv benv eenv env).2 ∧
    (∀ f, WorkflowEvent.createdContext f ∉ (runCaptureWorkflow sep argv benv eenv env).2) := by
  have herr : ∃ msg, resolveAnimationPattern sep argv = .error msg := by
    rcases h with rfl | hlen | ⟨p, rfl, hsep⟩
    · exact ⟨_, rfl⟩
    · match argv, hlen with
      | a :: b :: rest, _ => exact ⟨_, rfl⟩
    · have hc : (p.toList.contains '/' || p.toList.contains sep) = true := by
        rcases hsep with hsep | hsep
        · simp only [Bool.or_eq_true]
          left
          simpa using hsep
        · simp only [Bool.or_eq_true]
          right
          simpa using hsep
      exact ⟨"Provide only the HTML file name, not a path.",
        by simp only [resolveAnimationPattern, hc, if_true]⟩
  obtain ⟨msg, hmsg⟩ := herr
  have hrun : runCaptureWorkflow sep argv benv eenv env = (1, []) := by
    simp only [runCaptureWorkflow, buildCaptureConfig, hmsg]
    rfl
  refine ⟨⟨msg, hmsg⟩, hrun, ?_, ?_⟩
  · rw [hrun]; simp
  · intro f; rw [hrun]; simp

/-- Witness for C7 with zero arguments. -/
theorem resolveAnimationPattern_rejects_before_launch_witness :
    (([] : List String) = [] ∨ 1 < ([] : List String).length ∨
      ∃ p, ([] : List String) = [p] ∧ ('/' ∈ p.toList ∨ '/' ∈ p.toList)) ∧
    ((∃ msg, resolveAnimationPattern '/' [] = .error msg) ∧
    runCaptureWorkflow '/' [] none none
      (WorkflowEnv.mk (.ok ()) (.ok []) (.ok ()) (.ok ()) (.ok ())
        (fun _ => .ok [])) = (1, []) ∧
    WorkflowEvent.launchedBrowser ∉ (runCaptureWorkflow '/' [] none none
      (WorkflowEnv.mk (.ok ()) (.ok []) (.ok ()) (.ok ()) (.ok ())
        (fun _ => .ok []))).2 ∧
    (∀ f, WorkflowEvent.createdContext f ∉ (runCaptureWorkflow '/' [] none none
      (WorkflowEnv.mk (.ok ()) (.ok []) (.ok ()) (.ok ()) (.ok ())
        (fun _ => .ok []))).2)) :=
  ⟨Or.inl rfl, resolveAnimationPattern_rejects_before_launch '/' [] none none
    (WorkflowEnv.mk (.ok ()) (.ok []) (.ok ()) (.ok ()) (.ok ())
      (fun _ => .ok [])) (Or.inl rfl)⟩

/-- `Number.MIN_VALUE`, the smallest positive JS double, as an exact
rational. -/
def numberMinValue : ℚ := 1 / 2 ^ 1074

/-- The slice of an anime.js instance state read and written by the
bootstrap shim: `currentTime` (`none` models a non-number field value, which
the source coerces to 0 via its `typeof` check) and the two lifecycle
flags. -/
structure AnimeInstance where
  currentTime : Option JSNum
  began : Bool
  loopBegan : Bool
deriving DecidableEq, Repr

/-- Shallow embedding of the injected `patchedSeek(time)` wrapper of the
anime.js lifecycle bootstrap patch.  `origSeek` is the library's original
`seek`, modelled as a state transformer on the same instance; a throwing
seek is an `.error` carrying the thrown value together with the instance
state at throw time.  `time` is the seek target's numeric value (the
source's `typeof`/`Number()` normalization only feeds the finiteness and
positivity tests, which behave identically on the coerced value). -/
def patchedSeek {E : Type}
    (origSeek : AnimeInstance → JSNum → Except (E × AnimeInstance) AnimeInstance)
    (inst : AnimeInstance) (time : JSNum) : Except (E × AnimeInstance) AnimeInstance :=
  let previousTime : JSNum := inst.currentTime.getD (.fin 0)
  let needsBootstrap :=
    time.isFinite && JSNum.jsLt (.fin 0) time &&
      decide (previousTime = .fin 0) && (!inst.began || !inst.loopBegan)
  let primed :=
    if needsBootstrap then { inst with currentTime := some (.fin numberMinValue) }
    else inst
  match origSeek primed time with
  | .ok s => .ok s
  | .error (e, s) =>
    .error (e, if needsBootstrap then { s with currentTime := some previousTime } else s)

/-- The shim's `needsBootstrap` test, for an instance whose `currentTime` is
the number `c`, holds exactly when the target is finite and positive, `c` is
0, and the two lifecycle flags are not both set. -/
theorem needsBootstrap_iff (inst : AnimeInstance) (time : JSNum) (c : ℚ)
    (hc : inst.currentTime = some (.fin c)) :
    (time.isFinite && JSNum.jsLt (.fin 0) time &&
      decide (inst.currentTime.getD (.fin 0) = .fin 0) &&
      (!inst.began || !inst.loopBegan)) = true ↔
    (time.isFinite = true ∧ JSNum.jsLt (.fin 0) time = true ∧ c = 0 ∧
      ¬(inst.began = true ∧ inst.loopBegan = true)) := by
  simp only [hc, Option.getD_some, Bool.and_eq_true, Bool.or_eq_true,
    Bool.not_eq_true', decide_eq_true_eq, JSNum.fin.injEq]
  constructor
  · rintro ⟨⟨⟨hf, hlt⟩, hc0⟩, hflags⟩
    refine ⟨hf, hlt, hc0, ?_⟩
    rintro ⟨hb, hl⟩
    rcases hflags with hflags | hflags
    · rw [hb] at hflags; cases hflags
    · rw [hl] at hflags; cases hflags
  · rintro ⟨hf, hlt, hc0, hnb⟩
    refine ⟨⟨⟨hf, hlt⟩, hc0⟩, ?_⟩
    cases hb : inst.began with
    | false => exact Or.inl rfl
    | true =>
      cases hl : inst.loopBegan with
      | false => exact Or.inr rfl
      | true => exact absurd ⟨hb, hl⟩ hnb

/-- C4: called with a finite positive target while the instance's
`currentTime` is the number 0 and its `began`/`loopBegan` flags are not both
set, the patched seek first sets the position to `Number.MIN_VALUE` and then
delegates to the original seek with the original target argument; in every
other case it delegates to the original seek on the untouched instance. -/
theorem patchedSeek_bootstrap_delegation {E : Type}
    (origSeek : AnimeInstance → JSNum → Except (E × AnimeInstance) AnimeInstance)
    (inst : AnimeInstance) (time : JSNum) (c : ℚ)
    (hc : inst.currentTime = some (.fin c)) :
    ((time.isFinite = true ∧ JSNum.jsLt (.fin 0) time = true ∧ c = 0 ∧
        ¬(inst.began = true ∧ inst.loopBegan = true)) →
      ∀ r, origSeek { inst with currentTime := some (.fin numberMinValue) } time = .ok r →
        patchedSeek origSeek inst time = .ok r) ∧
    (¬(time.isFinite = true ∧ JSNum.jsLt (.fin 0) time = true ∧ c = 0 ∧
        ¬(inst.began = true ∧ inst.loopBegan = true)) →
      patchedSeek origSeek inst time = origSeek inst time) := by
  constructor
  · intro hcond r hr
    have hb := (needsBootstrap_iff inst time c hc).2 hcond
    simp only [patchedSeek, hb, eq_self_iff_true, if_true]
    rw [hr]
  · intro hcond
    have hb : (time.isFinite && JSNum.jsLt (.fin 0) time &&
        decide (inst.currentTime.getD (.fin 0) = .fin 0) &&
        (!inst.began || !inst.loopBegan)) = false := by
      rw [← Bool.not_eq_true]
      intro hx
      exact hcond ((needsBootstrap_iff inst time c hc).1 hx)
    simp only [patchedSeek, hb, Bool.false_eq_true, if_false]
    cases h : origSeek inst time with
    | ok s => rfl
    | error es => cases es with | mk e s => rfl

/-- Witness for C4: an unstarted instance resting at 0, seeking to 5 with an
original seek that returns the primed state. -/
theorem patchedSeek_bootstrap_delegation_witness :
    ((AnimeInstance.mk (some (.fin 0)) false false).currentTime = some (.fin 0)) ∧
    ((((JSNum.fin 5).isFinite = true ∧ JSNum.jsLt (.fin 0) (.fin 5) = true ∧ (0 : ℚ) = 0 ∧
        ¬((AnimeInstance.mk (some (.fin 0)) false false).began = true ∧
          (AnimeInstance.mk (some (.fin 0)) false false).loopBegan = true)) →
      ∀ r, (fun (i : AnimeInstance) (_ : JSNum) =>
          (.ok i : Except (Unit × AnimeInstance) AnimeInstance))
          { AnimeInstance.mk (some (.fin 0)) false false with
            currentTime := some (.fin numberMinValue) } (.fin 5) = .ok r →
        patchedSeek (fun (i : AnimeInstance) (_ : JSNum) =>
          (.ok i : Except (Unit × AnimeInstance) AnimeInstance))
          (AnimeInstance.mk (some (.fin 0)) false false) (.fin 5) = .ok r) ∧
    (¬((JSNum.fin 5).isFinite = true ∧ JSNum.jsLt (.fin 0) (.fin 5) = true ∧ (0 : ℚ) = 0 ∧
        ¬((AnimeInstance.mk (some (.fin 0)) false false).began = true ∧
          (AnimeInstance.mk (some (.fin 0)) false false).loopBegan = true)) →
      patchedSeek (fun (i : AnimeInstance) (_ : JSNum) =>
          (.ok i : Except (Unit × AnimeInstance) AnimeInstance))
        (AnimeInstance.mk (some (.fin 0)) false false) (.fin 5) =
        (fun (i : AnimeInstance) (_ : JSNum) =>
          (.ok i : Except (Unit × AnimeInstance) AnimeInstance))
          (AnimeInstance.mk (some (.fin 0)) false false) (.fin 5))) :=
  ⟨rfl, patchedSeek_bootstrap_delegation
    (fun (i : AnimeInstance) (_ : JSNum) => (.ok i : Except (Unit × AnimeInstance) AnimeInstance))
    (AnimeInstance.mk (some (.fin 0)) false false) (.fin 5) 0 rfl⟩

/-- C10: when the bootstrap nudge fired and the delegated original seek
throws, the patched seek restores the instance's `currentTime` to its
pre-call value before rethrowing the original error — in particular the
erred instance is not left at the nudged `Number.MIN_VALUE` position. -/
theorem patchedSeek_restores_on_error {E : Type}
    (origSeek : AnimeInstance → JSNum → Except (E × AnimeInstance) AnimeInstance)
    (inst : AnimeInstance) (time : JSNum) (c : ℚ) (e : E) (s : AnimeInstance)
    (hc : inst.currentTime = some (.fin c))
    (hcond : time.isFinite = true ∧ JSNum.jsLt (.fin 0) time = true ∧ c = 0 ∧
      ¬(inst.began = true ∧ inst.loopBegan = true))
    (herr : origSeek { inst with currentTime := some (.fin numberMinValue) } time =
      .error (e, s)) :
    patchedSeek origSeek inst time =
      .error (e, { s with currentTime := inst.currentTime }) ∧
    ({ s with currentTime := inst.currentTime } : AnimeInstance).currentTime ≠
      some (.fin numberMinValue) := by
  have hb := (needsBootstrap_iff inst time c hc).2 hcond
  constructor
  · simp only [patchedSeek, hb, eq_self_iff_true, if_true]
    rw [herr, hc]
    simp only [Option.getD_some]
  · rw [hc]
    intro hx
    rw [Option.some_inj] at hx
    have : c = numberMinValue := by
      injection hx
    rw [hcond.2.2.1] at this
    have hpos : (0 : ℚ) < numberMinValue := by
      rw [numberMinValue]
      positivity
    rw [← this] at hpos
    exact lt_irrefl 0 hpos

/-- Witness for C10: the nudged seek fails, and the error carries the
instance restored to rest at 0. -/
theorem patchedSeek_restores_on_error_witness :
    ((AnimeInstance.mk (some (.fin 0)) false false).currentTime = some (.fin 0)) ∧
    (patchedSeek (fun (i : AnimeInstance) (_ : JSNum) =>
        (.error ((), i) : Except (Unit × AnimeInstance) AnimeInstance))
      (AnimeInstance.mk (some (.fin 0)) false false) (.fin 5) =
      .error ((), { { AnimeInstance.mk (some (.fin 0)) false false with
          currentTime := some (.fin numberMinValue) } with
        currentTime := (AnimeInstance.mk (some (.fin 0)) false false).currentTime }) ∧
    ({ { AnimeInstance.mk (some (.fin 0)) false false with
          currentTime := some (.fin numberMinValue) } with
        currentTime := (AnimeInstance.mk (some (.fin 0)) false false).currentTime } :
      AnimeInstance).currentTime ≠ some (.fin numberMinValue)) :=
  ⟨rfl, patchedSeek_restores_on_error
    (fun (i : AnimeInstance) (_ : JSNum) =>
      (.error ((), i) : Except (Unit × AnimeInstance) AnimeInstance))
    (AnimeInstance.mk (some (.fin 0)) false false) (.fin 5) 0 ()
    { AnimeInstance.mk (some (.fin 0)) false false with
      currentTime := some (.fin numberMinValue) }
    rfl (by refine ⟨rfl, ?_, rfl, ?_⟩ <;> simp [JSNum.jsLt]) rfl⟩

/-- The automation state touched by the anime.js patch: the `WeakSet` of
already-patched instances, the tracked-instance `Set`, and for each instance
(identified by an object id) how many wrapper layers have been installed
around its `seek`, `reset` and `add` methods. -/
structure PatchState where
  patched : List ℕ
  tracked : List ℕ
  seekWraps : ℕ → ℕ
  resetWraps : ℕ → ℕ
  addWraps : ℕ → ℕ

/-- Shallow embedding of the patch's `patchInstance(instance)`: a guarded
no-op for already-patched instances, otherwise it marks the instance as
patched and tracked, recursively patches its children, and installs one
wrapper layer around each of `seek`, `reset` and `add` that the instance
has.  The object graph is supplied by `children` and the method-presence
tests by `hasSeek`/`hasReset`/`hasAdd`; recursion depth is bounded by
`fuel`, which mirrors the source recursion that terminates because the
`WeakSet` guard blocks revisits (all claims below hold for every fuel). -/
def patchInstanceF (children : ℕ → List ℕ) (hasSeek hasReset hasAdd : ℕ → Bool) :
    ℕ → PatchState → ℕ → PatchState
  | 0, s, _ => s
  | fuel + 1, s, i =>
    if i ∈ s.patched then s
    else
      let s1 : PatchState := { s with patched := i :: s.patched, tracked := i :: s.tracked }
      let s2 := (children i).foldl (patchInstanceF children hasSeek hasReset hasAdd fuel) s1
      { s2 with
        seekWraps := if hasSeek i then
            (fun j => if j = i then s2.seekWraps j + 1 else s2.seekWraps j)
          else s2.seekWraps
        resetWraps := if hasReset i then
            (fun j => if j = i then s2.resetWraps j + 1 else s2.resetWraps j)
          else s2.resetWraps
        addWraps := if hasAdd i then
            (fun j => if j = i then s2.addWraps j + 1 else s2.addWraps j)
          else s2.addWraps }

/-- Instances already in the patched set stay patched and never get another
seek wrapper, no matter which instance is patched next. -/
theorem patchInstanceF_preserve (children : ℕ → List ℕ)
    (hasSeek hasReset hasAdd : ℕ → Bool) :
    ∀ (fuel : ℕ) (s : PatchState) (i j : ℕ), j ∈ s.patched →
      j ∈ (patchInstanceF children hasSeek hasReset hasAdd fuel s i).patched ∧
      (patchInstanceF children hasSeek hasReset hasAdd fuel s i).seekWraps j =
        s.seekWraps j := by
  intro fuel
  induction fuel with
  | zero => intro s i j hj; exact ⟨hj, rfl⟩
  | succ n ih =>
    intro s i j hj
    simp only [patchInstanceF]
    by_cases hi : i ∈ s.patched
    · rw [if_pos hi]
      exact ⟨hj, rfl⟩
    · rw [if_neg hi]
      have aux : ∀ (l : List ℕ) (t : PatchState), j ∈ t.patched →
          j ∈ (l.foldl (patchInstanceF children hasSeek hasReset hasAdd n) t).patched ∧
          (l.foldl (patchInstanceF children hasSeek hasReset hasAdd n) t).seekWraps j =
            t.seekWraps j := by
        intro l
        induction l with
        | nil => intro t ht; exact ⟨ht, rfl⟩
        | cons a as ihl =>
          intro t ht
          simp only [List.foldl_cons]
          obtain ⟨h1, h2⟩ := ih t a j ht
          obtain ⟨h3, h4⟩ := ihl _ h1
          exact ⟨h3, by rw [h4, h2]⟩
      obtain ⟨h1, h2⟩ := aux (children i)
        { s with patched := i :: s.patched, tracked := i :: s.tracked }
        (List.mem_cons_of_mem _ hj)
      have hji : j ≠ i := fun h => hi (h ▸ hj)
      refine ⟨h1, ?_⟩
      cases hsk : hasSeek i with
      | false => simp only [hsk, Bool.false_eq_true, if_false]; rw [h2]
      | true => simp only [hsk, if_true, hji, if_false]; rw [h2]

/-- After one application with positive fuel, the instance is in the patched
set. -/
theorem patchInstanceF_mem_after (children : ℕ → List ℕ)
    (hasSeek hasReset hasAdd : ℕ → Bool) (fuel : ℕ) (s : PatchState) (i : ℕ)
    (hf : 1 ≤ fuel) :
    i ∈ (patchInstanceF children hasSeek hasReset hasAdd fuel s i).patched := by
  obtain ⟨n, rfl⟩ : ∃ n, fuel = n + 1 := ⟨fuel - 1, by omega⟩
  simp only [patchInstanceF]
  by_cases hi : i ∈ s.patched
  · rw [if_pos hi]; exact hi
  · rw [if_neg hi]
    have aux : ∀ (l : List ℕ) (t : PatchState), i ∈ t.patched →
        i ∈ (l.foldl (patchInstanceF children hasSeek hasReset hasAdd n) t).patched := by
      intro l
      induction l with
      | nil => intro t ht; exact ht
      | cons a as ihl =>
        intro t ht
        simp only [List.foldl_cons]
        exact ihl _ (patchInstanceF_preserve children hasSeek hasReset hasAdd n t a i ht).1
    exact aux (children i)
      { s with patched := i :: s.patched, tracked := i :: s.tracked }
      (List.mem_cons_self _ _)

/-- Patching a not-yet-patched instance installs exactly one seek wrapper on
it (when it has a seek method, and none otherwise). -/
theorem patchInstanceF_wrap_new (children : ℕ → List ℕ)
    (hasSeek hasReset hasAdd : ℕ → Bool) (fuel : ℕ) (s : PatchState) (i : ℕ)
    (hf : 1 ≤ fuel) (hi : i ∉ s.patched) :
    (patchInstanceF children hasSeek hasReset hasAdd fuel s i).seekWraps i =
      s.seekWraps i + (if hasSeek i then 1 else 0) := by
  obtain ⟨n, rfl⟩ : ∃ n, fuel = n + 1 := ⟨fuel - 1, by omega⟩
  simp only [patchInstanceF]
  rw [if_neg hi]
  have aux : ∀ (l : List ℕ) (t : PatchState), i ∈ t.patched →
      (l.foldl (patchInstanceF children hasSeek hasReset hasAdd n) t).seekWraps i =
        t.seekWraps i := by
    intro l
    induction l with
    | nil => intro t ht; rfl
    | cons a as ihl =>
      intro t ht
      simp only [List.foldl_cons]
      obtain ⟨h1, h2⟩ := patchInstanceF_preserve children hasSeek hasReset hasAdd n t a i ht
      rw [ihl _ h1, h2]
  have h2 := aux (children i)
    { s with patched := i :: s.patched, tracked := i :: s.tracked }
    (List.mem_cons_self _ _)
  cases hsk : hasSeek i with
  | false => simp only [hsk, Bool.false_eq_true, if_false]; rw [h2]; rfl
  | true =>
    simp only [hsk, if_true, eq_self_iff_true]
    rw [h2]

/-- C5: applying `patchInstance` twice to the same instance wraps its seek
exactly once — the guard set makes the second application a literal no-op on
the whole automation state, the instance is marked patched after the first
application, and the double application leaves exactly one added seek
wrapper (so one lifecycle-callback cascade per seek, not two). -/
theorem patchInstance_idempotent (children : ℕ → List ℕ)
    (hasSeek hasReset hasAdd : ℕ → Bool) (fuel : ℕ) (s : PatchState) (i : ℕ)
    (hf : 1 ≤ fuel) (hi : i ∉ s.patched) (hseek : hasSeek i = true) :
    patchInstanceF children hasSeek hasReset hasAdd fuel
        (patchInstanceF children hasSeek hasReset hasAdd fuel s i) i =
      patchInstanceF children hasSeek hasReset hasAdd fuel s i ∧
    i ∈ (patchInstanceF children hasSeek hasReset hasAdd fuel s i).patched ∧
    (patchInstanceF children hasSeek hasReset hasAdd fuel
        (patchInstanceF children hasSeek hasReset hasAdd fuel s i) i).seekWraps i =
      s.seekWraps i + 1 := by
  have hmem := patchInstanceF_mem_after children hasSeek hasReset hasAdd fuel s i hf
  have hnoop : patchInstanceF children hasSeek hasReset hasAdd fuel
      (patchInstanceF children hasSeek hasReset hasAdd fuel s i) i =
      patchInstanceF children hasSeek hasReset hasAdd fuel s i := by
    obtain ⟨n, rfl⟩ : ∃ n, fuel = n + 1 := ⟨fuel - 1, by omega⟩
    simp only [patchInstanceF]
    rw [if_pos]
    exact patchInstanceF_mem_after children hasSeek hasReset hasAdd (n + 1) s i hf
  refine ⟨hnoop, hmem, ?_⟩
  rw [hnoop]
  rw [patchInstanceF_wrap_new children hasSeek hasReset hasAdd fuel s i hf hi, hseek]
  rfl

/-- Witness for C5: a two-child timeline patched twice from a fresh state
gets exactly one seek wrapper. -/
theorem patchInstance_idempotent_witness :
    (1 ≤ 3 ∧ (7 : ℕ) ∉ (PatchState.mk [] [] (fun _ => 0) (fun _ => 0) (fun _ => 0)).patched ∧
      (fun _ : ℕ => true) 7 = true) ∧
    (patchInstanceF (fun _ => [1, 2]) (fun _ => true) (fun _ => true) (fun _ => true) 3
        (patchInstanceF (fun _ => [1, 2]) (fun _ => true) (fun _ => true) (fun _ => true) 3
          (PatchState.mk [] [] (fun _ => 0) (fun _ => 0) (fun _ => 0)) 7) 7 =
      patchInstanceF (fun _ => [1, 2]) (fun _ => true) (fun _ => true) (fun _ => true) 3
        (PatchState.mk [] [] (fun _ => 0) (fun _ => 0) (fun _ => 0)) 7 ∧
    7 ∈ (patchInstanceF (fun _ => [1, 2]) (fun _ => true) (fun _ => true) (fun _ => true) 3
        (PatchState.mk [] [] (fun _ => 0) (fun _ => 0) (fun _ => 0)) 7).patched ∧
    (patchInstanceF (fun _ => [1, 2]) (fun _ => true) (fun _ => true) (fun _ => true) 3
        (patchInstanceF (fun _ => [1, 2]) (fun _ => true) (fun _ => true) (fun _ => true) 3
          (PatchState.mk [] [] (fun _ => 0) (fun _ => 0) (fun _ => 0)) 7) 7).seekWraps 7 =
      (PatchState.mk [] [] (fun _ => 0) (fun _ => 0) (fun _ => 0)).seekWraps 7 + 1) :=
  ⟨⟨by omega, by simp, rfl⟩,
    patchInstance_idempotent (fun _ => [1, 2]) (fun _ => true) (fun _ => true)
      (fun _ => true) 3 (PatchState.mk [] [] (fun _ => 0) (fun _ => 0) (fun _ => 0)) 7
      (by omega) (by simp) rfl⟩

/-- A token of the regex produced by `wildcardToRegExp`: the escape pass
makes every character literal, after which escaped `\*` becomes `.*` and
escaped `\?` becomes `.`. -/
inductive GlobTok where
  | star : GlobTok
  | one : GlobTok
  | lit : Char → GlobTok
deriving DecidableEq, Repr

/-- The token list of the regex `wildcardToRegExp` builds from a pattern. -/
def wildcardTokens (pattern : List Char) : List GlobTok :=
  pattern.map (fun c => if c = '*' then .star else if c = '?' then .one else .lit c)

/-- Matching a `.*`: try the continuation on the current suffix and on every
shorter suffix. -/
def starAux (f : List Char → Bool) : List Char → Bool
  | [] => f []
  | c :: s => f (c :: s) || starAux f s

/-- Anchored (`^...$`) matcher for the produced token list, comparing
literals case-insensitively as the `i` flag does (ASCII folding). -/
def tokMatch : List GlobTok → List Char → Bool
  | [], s => s.isEmpty
  | .one :: _, [] => false
  | .one :: ps, _ :: s => tokMatch ps s
  | .lit _ :: _, [] => false
  | .lit c :: ps, d :: s => (c.toLower == d.toLower) && tokMatch ps s
  | .star :: ps, s => starAux (tokMatch ps) s

/-- Shallow embedding of `wildcardToRegExp(pattern)`: the matcher obtained
by testing the built regex against a file name. -/
def wildcardToRegExp (pattern : String) : String → Bool :=
  fun s => tokMatch (wildcardTokens pattern.toList) s.toList

/-- Specification-side glob semantics: the whole name is consumed, `*`
matches any character sequence, `?` exactly one character, and any other
pattern character matches exactly one character equal to it up to ASCII
case. -/
inductive GlobAccepts : List Char → List Char → Prop where
  | nil : GlobAccepts [] []
  | one {p s : List Char} (c : Char) :
      GlobAccepts p s → GlobAccepts ('?' :: p) (c :: s)
  | star_skip {p s : List Char} :
      GlobAccepts p s → GlobAccepts ('*' :: p) s
  | star_take {p s : List Char} (c : Char) :
      GlobAccepts ('*' :: p) s → GlobAccepts ('*' :: p) (c :: s)
  | lit {p s : List Char} {a c : Char} :
      a ≠ '*' → a ≠ '?' → a.toLower = c.toLower →
      GlobAccepts p s → GlobAccepts (a :: p) (c :: s)

/-- Inversion: nothing but the empty name matches the empty pattern. -/
theorem globAccepts_nil_inv {s : List Char} (h : GlobAccepts [] s) : s = [] := by
  cases h
  rfl

/-- Inversion for a pattern starting with an arbitrary character. -/
theorem globAccepts_cons_inv {a : Char} {p s : List Char}
    (h : GlobAccepts (a :: p) s) :
    (a = '*' ∧ (GlobAccepts p s ∨ ∃ c s2, s = c :: s2 ∧ GlobAccepts (a :: p) s2)) ∨
    (a = '?' ∧ ∃ c s2, s = c :: s2 ∧ GlobAccepts p s2) ∨
    (a ≠ '*' ∧ a ≠ '?' ∧
      ∃ c s2, s = c :: s2 ∧ a.toLower = c.toLower ∧ GlobAccepts p s2) := by
  cases h with
  | one c g => exact Or.inr (Or.inl ⟨rfl, c, _, rfl, g⟩)
  | star_skip g => exact Or.inl ⟨rfl, Or.inl g⟩
  | star_take c g => exact Or.inl ⟨rfl, Or.inr ⟨c, _, rfl, g⟩⟩
  | lit hna hnq hlow g => exact Or.inr (Or.inr ⟨hna, hnq, _, _, rfl, hlow, g⟩)

/-- The compiled matcher agrees with the glob semantics. -/
theorem tokMatch_iff_globAccepts :
    ∀ (p s : List Char), tokMatch (wildcardTokens p) s = true ↔ GlobAccepts p s := by
  intro p
  induction p with
  | nil =>
    intro s
    cases s with
    | nil =>
      simp only [wildcardTokens, List.map_nil, tokMatch, List.isEmpty_nil, true_iff]
      exact GlobAccepts.nil
    | cons c s =>
      simp only [wildcardTokens, List.map_nil, tokMatch, List.isEmpty_cons,
        Bool.false_eq_true, false_iff]
      intro h
      exact absurd (globAccepts_nil_inv h) (by simp)
  | cons a p ih =>
    intro s
    by_cases ha : a = '*'
    · subst ha
      simp only [wildcardTokens, List.map_cons, if_pos rfl]
      induction s with
      | nil =>
        simp only [tokMatch, starAux]
        rw [show (List.map (fun c => if c = '*' then GlobTok.star
          else if c = '?' then GlobTok.one else GlobTok.lit c) p) = wildcardTokens p from rfl]
        rw [ih []]
        constructor
        · exact GlobAccepts.star_skip
        · intro h
          rcases globAccepts_cons_inv h with ⟨_, g | ⟨c, s2, hs, _⟩⟩ | ⟨hq, _⟩ | ⟨hna, _⟩
          · exact g
          · cases hs
          · exact absurd hq (by decide)
          · exact absurd rfl hna
      | cons c s ihs =>
        simp only [tokMatch, starAux, Bool.or_eq_true] at ihs ⊢
        rw [show (List.map (fun c => if c = '*' then GlobTok.star
          else if c = '?' then GlobTok.one else GlobTok.lit c) p) = wildcardTokens p from rfl]
        rw [show (starAux (tokMatch (wildcardTokens p)) s = true) ↔
          GlobAccepts ('*' :: p) s from ihs]
        rw [ih (c :: s)]
        constructor
        · rintro (g | g)
          · exact GlobAccepts.star_skip g
          · exact GlobAccepts.star_take c g
        · intro h
          rcases globAccepts_cons_inv h with ⟨_, g | ⟨c2, s2, hs, g⟩⟩ | ⟨hq, _⟩ | ⟨hna, _⟩
          · exact Or.inl g
          · rw [List.cons.injEq] at hs
            rw [← hs.2] at g
            exact Or.inr g
          · exact absurd hq (by decide)
          · exact absurd rfl hna
    · by_cases hq : a = '?'
      · subst hq
        simp only [wildcardTokens, List.map_cons, if_neg (by decide : ¬('?' = '*')),
          if_pos rfl]
        cases s with
        | nil =>
          simp only [tokMatch, Bool.false_eq_true, false_iff]
          intro h
          rcases globAccepts_cons_inv h with ⟨hstar, _⟩ | ⟨_, c, s2, hs, _⟩ | ⟨_, hnq, _⟩
          · exact absurd hstar (by decide)
          · cases hs
          · exact absurd rfl hnq
        | cons c s =>
          simp only [tokMatch]
          rw [show (List.map (fun c => if c = '*' then GlobTok.star
            else if c = '?' then GlobTok.one else GlobTok.lit c) p) = wildcardTokens p from rfl]
          rw [ih s]
          constructor
          · exact GlobAccepts.one c
          · intro h
            rcases globAccepts_cons_inv h with ⟨hstar, _⟩ | ⟨_, c2, s2, hs, g⟩ | ⟨_, hnq, _⟩
            · exact absurd hstar (by decide)
            · rw [List.cons.injEq] at hs
              rw [← hs.2] at g
              exact g
            · exact absurd rfl hnq
      · simp only [wildcardTokens, List.map_cons, if_neg ha, if_neg hq]
        cases s with
        | nil =>
          simp only [tokMatch, Bool.false_eq_true, false_iff]
          intro h
          rcases globAccepts_cons_inv h with ⟨hstar, _⟩ | ⟨hq2, _⟩ | ⟨_, _, c, s2, hs, _⟩
          · exact absurd hstar ha
          · exact absurd hq2 hq
          · cases hs
        | cons c s =>
          simp only [tokMatch, Bool.and_eq_true, beq_iff_eq]
          rw [show (List.map (fun c => if c = '*' then GlobTok.star
            else if c = '?' then GlobTok.one else GlobTok.lit c) p) = wildcardTokens p from rfl]
          rw [ih s]
          constructor
          · rintro ⟨hlow, g⟩
            exact GlobAccepts.lit ha hq hlow g
          · intro h
            rcases globAccepts_cons_inv h with ⟨hstar, _⟩ | ⟨hq2, _⟩ |
              ⟨_, _, c2, s2, hs, hlow, g⟩
            · exact absurd hstar ha
            · exact absurd hq2 hq
            · rw [List.cons.injEq] at hs
              rw [← hs.2] at g
              refine ⟨?_, g⟩
              rw [hs.1]
              exact hlow

/-- Glob acceptance only depends on the name up to ASCII case. -/
theorem globAccepts_of_toLower_eq :
    ∀ {p s : List Char}, GlobAccepts p s → ∀ (t : List Char),
      s.map Char.toLower = t.map Char.toLower → GlobAccepts p t := by
  intro p s h
  induction h with
  | nil =>
    intro t ht
    simp only [List.map_nil] at ht
    rw [List.eq_nil_of_map_eq_nil ht.symm]
    exact GlobAccepts.nil
  | one c g ihg =>
    intro t ht
    cases t with
    | nil => simp at ht
    | cons d t2 =>
      simp only [List.map_cons, List.cons.injEq] at ht
      exact GlobAccepts.one d (ihg t2 ht.2)
  | star_skip g ihg =>
    intro t ht
    exact GlobAccepts.star_skip (ihg t ht)
  | star_take c g ihg =>
    intro t ht
    cases t with
    | nil => simp at ht
    | cons d t2 =>
      simp only [List.map_cons, List.cons.injEq] at ht
      exact GlobAccepts.star_take d (ihg t2 ht.2)
  | lit hna hnq hlow g ihg =>
    intro t ht
    cases t with
    | nil => simp at ht
    | cons d t2 =>
      simp only [List.map_cons, List.cons.injEq] at ht
      refine GlobAccepts.lit hna hnq ?_ (ihg t2 ht.2)
      rw [hlow, ht.1]

/-- C6: the matcher produced by `wildcardToRegExp` anchors the whole file
name and maps `*` to any character sequence, `?` to exactly one character,
and every other character to itself up to ASCII case (the `GlobAccepts`
characterization); it is case-insensitive in the matched name; and the
matcher for `Demo-??.HTML` accepts `demo-ab.html` and `Demo-12.htmL` but
rejects `demo-abc.html`. -/
theorem wildcardToRegExp_spec :
    (∀ (p s : String), wildcardToRegExp p s = true ↔ GlobAccepts p.toList s.toList) ∧
    (∀ (p s t : String), s.toList.map Char.toLower = t.toList.map Char.toLower →
      wildcardToRegExp p s = wildcardToRegExp p t) ∧
    wildcardToRegExp "Demo-??.HTML" "demo-ab.html" = true ∧
    wildcardToRegExp "Demo-??.HTML" "Demo-12.htmL" = true ∧
    wildcardToRegExp "Demo-??.HTML" "demo-abc.html" = false := by
  have hiff : ∀ (p s : String),
      wildcardToRegExp p s = true ↔ GlobAccepts p.toList s.toList :=
    fun p s => tokMatch_iff_globAccepts p.toList s.toList
  refine ⟨hiff, ?_, by decide, by decide, by decide⟩
  intro p s t ht
  cases hb : wildcardToRegExp p t with
  | true =>
    rw [(hiff p s).2 (globAccepts_of_toLower_eq ((hiff p t).1 hb) s.toList ht.symm)]
  | false =>
    cases hbs : wildcardToRegExp p s with
    | false => rfl
    | true =>
      rw [(hiff p t).2
        (globAccepts_of_toLower_eq ((hiff p s).1 hbs) t.toList ht)] at hb
      cases hb

/-- Witness for C6: case-insensitivity applied to `demo-ab.html` versus
`DEMO-AB.HTML`. -/
theorem wildcardToRegExp_spec_witness :
    ("demo-ab.html".toList.map Char.toLower = "DEMO-AB.HTML".toList.map Char.toLower) ∧
    wildcardToRegExp "Demo-??.HTML" "demo-ab.html" =
      wildcardToRegExp "Demo-??.HTML" "DEMO-AB.HTML" :=
  ⟨by decide, wildcardToRegExp_spec.2.1 "Demo-??.HTML" "demo-ab.html" "DEMO-AB.HTML"
    (by decide)⟩

/-- JS binary `Math.min` (`NaN` propagates, infinities behave as bounds). -/
def jsMin : JSNum → JSNum → JSNum
  | .nan, _ => .nan
  | _, .nan => .nan
  | .negInf, _ => .negInf
  | _, .negInf => .negInf
  | .posInf, b => b
  | a, .posInf => a
  | .fin a, .fin b => .fin (min a b)

/-- `Math.min(...list)`: `Infinity` for the empty spread, folding `jsMin`. -/
def jsMinList (l : List JSNum) : JSNum :=
  l.foldl jsMin .posInf

/-- JS subtraction on numbers. -/
def jsSub : JSNum → JSNum → JSNum
  | .nan, _ => .nan
  | _, .nan => .nan
  | .fin a, .fin b => .fin (a - b)
  | .fin _, .posInf => .negInf
  | .fin _, .negInf => .posInf
  | .posInf, .fin _ => .posInf
  | .posInf, .posInf => .nan
  | .posInf, .negInf => .posInf
  | .negInf, .fin _ => .negInf
  | .negInf, .posInf => .negInf
  | .negInf, .negInf => .nan

/-- JS `Math.abs`. -/
def jsAbs : JSNum → JSNum
  | .nan => .nan
  | .posInf => .posInf
  | .negInf => .posInf
  | .fin a => .fin |a|

/-- Division by 1000 (milliseconds to seconds). -/
def jsDiv1000 : JSNum → JSNum
  | .fin q => .fin (q / 1000)
  | x => x

/-- The slice of an HTML media element observed and mutated by
`synchronizeMediaPlayback`: ready state, duration, current time, the
paused/ended flags, and the end times of its buffered ranges.
`HAVE_METADATA = 1` and `HAVE_CURRENT_DATA = 2` are the standard ready-state
constants. -/
structure MediaElement where
  readyState : ℕ
  duration : JSNum
  currentTime : JSNum
  paused : Bool
  ended : Bool
  bufferedEnds : List JSNum
deriving DecidableEq, Repr

/-- The helper `toFinite(value)`: the value if finite, `NaN` otherwise. -/
def toFinite (v : JSNum) : JSNum :=
  if v.isFinite then v else .nan

/-- The helper `pickLatestBufferedTime(element)`: `NaN` with no buffered
data, otherwise the largest finite buffered end time. -/
def pickLatestBufferedTime (ends : List JSNum) : JSNum :=
  ends.foldl (fun latest candidate =>
    if ¬ candidate.isFinite then latest
    else if ¬ latest.isFinite || JSNum.jsLt latest candidate then candidate
    else latest) .nan

/-- The `~8ms` epsilon guarding against redundant seeks. -/
def mediaEpsilon : ℚ := 1 / 120

/-- `alignElement`'s `naturalFrameIsReady`: the element already has a
current frame at a valid non-negative position while paused or ended. -/
def naturalFrameIsReady (e : MediaElement) : Bool :=
  (toFinite e.currentTime).isFinite &&
    JSNum.jsLe (.fin 0) (toFinite e.currentTime) &&
    (e.paused || e.ended) && decide (2 ≤ e.readyState)

/-- `alignElement`'s `candidateTimes` array: the requested target plus the
duration, latest buffered time, and (when a frame is already ready) the
current time, each gated as in the source. -/
def candidateTimes (targetSeconds : JSNum) (e : MediaElement) : List JSNum :=
  [targetSeconds] ++
  (if (toFinite e.duration).isFinite && JSNum.jsLe (.fin 0) (toFinite e.duration) then
    [toFinite e.duration] else []) ++
  (if (pickLatestBufferedTime e.bufferedEnds).isFinite &&
      JSNum.jsLe (.fin 0) (pickLatestBufferedTime e.bufferedEnds) then
    [pickLatestBufferedTime e.bufferedEnds] else []) ++
  (if naturalFrameIsReady e then [toFinite e.currentTime] else [])

/-- Shallow embedding of `alignElement(element)` from
`synchronizeMediaPlayback`: pause, resolve the effective target as the
minimum of the finite candidates, seek unless the current time is already
within epsilon of it, pause again.  (The source's try/catch around `pause`
and the `currentTime` setter have no failing case in this state model.) -/
def alignElement (targetSeconds : JSNum) (e : MediaElement) : MediaElement :=
  let naturalTime := toFinite e.currentTime
  let effectiveTarget := jsMinList ((candidateTimes targetSeconds e).filter JSNum.isFinite)
  if ¬ effectiveTarget.isFinite then e
  else
    let e1 := { e with paused := true }
    let e2 :=
      if ¬ naturalTime.isFinite ||
          JSNum.jsLt (.fin mediaEpsilon) (jsAbs (jsSub naturalTime effectiveTarget)) then
        { e1 with currentTime := effectiveTarget }
      else e1
    { e2 with paused := true }

/-- Shallow embedding of `synchronizeMediaPlayback(page, targetTimeMs)`
restricted to one synchronization pass: negative targets return
immediately, otherwise every element whose metadata is loaded
(`readyState ≥ HAVE_METADATA`) is aligned to
`targetSeconds = max(0, targetTimeMs / 1000)`; elements still waiting for
metadata are aligned later by their `loadedmetadata` listener and are
unchanged by this pass. -/
def synchronizeMediaPlayback (targetTimeMs : JSNum) (elems : List MediaElement) :
    List MediaElement :=
  if JSNum.jsLt targetTimeMs (.fin 0) then elems
  else
    elems.map (fun e =>
      if 1 ≤ e.readyState then
        alignElement (JSNum.jsMax0 (jsDiv1000 targetTimeMs)) e
      else e)

/-- The claim's effective target: minimum of the requested target, the
duration, and the latest buffered extent only. -/
def claimEffectiveTarget (targetSeconds : JSNum) (e : MediaElement) : JSNum :=
  jsMin targetSeconds
    (jsMin (toFinite e.duration) (pickLatestBufferedTime e.bufferedEnds))

/-- C3 counterexample element: metadata loaded, 10 s duration, fully
buffered, paused at 0 with a ready frame. -/
def mediaElemCx : MediaElement :=
  MediaElement.mk 2 (.fin 10) (.fin 0) true false [.fin 10]


theorem jsMin_posInf_left (a : JSNum) : jsMin .posInf a = a := by
  cases a <;> rfl

theorem jsMin_posInf_right (a : JSNum) : jsMin a .posInf = a := by
  cases a <;> rfl

theorem jsMin_assoc (a b c : JSNum) : jsMin (jsMin a b) c = jsMin a (jsMin b c) := by
  cases a <;> cases b <;> cases c <;> simp [jsMin, min_assoc]

/-- Specification-side effective target (the amended C3 reading): the
minimum of the requested target, the element's duration, its latest
buffered extent, and — when the element already reports a ready frame while
paused or ended — its current time, each candidate participating only when
finite (and, for duration/buffered, non-negative) as the spec's "effective
target" intends. -/
def specEffectiveTarget (targetSeconds : JSNum) (e : MediaElement) : JSNum :=
  jsMin (if targetSeconds.isFinite then targetSeconds else .posInf)
    (jsMin
      (if (toFinite e.duration).isFinite && JSNum.jsLe (.fin 0) (toFinite e.duration) then
        toFinite e.duration else .posInf)
      (jsMin
        (if (pickLatestBufferedTime e.bufferedEnds).isFinite &&
            JSNum.jsLe (.fin 0) (pickLatestBufferedTime e.bufferedEnds) then
          pickLatestBufferedTime e.bufferedEnds else .posInf)
        (if naturalFrameIsReady e then toFinite e.currentTime else .posInf)))

/-- Filtering a gated singleton whose gate implies finiteness is the
identity. -/
theorem filter_gated (c : Bool) (v : JSNum) (h : c = true → v.isFinite = true) :
    List.filter JSNum.isFinite (if c then [v] else []) = if c then [v] else [] := by
  cases c
  · rfl
  · simp [List.filter, h rfl]

/-- Filtering a singleton. -/
theorem filter_single (v : JSNum) :
    List.filter JSNum.isFinite [v] = if v.isFinite then [v] else [] := by
  cases hf : v.isFinite <;> simp [List.filter, hf]

/-- Folding `Math.min` through a gated singleton absorbs it into the
accumulator, with `Infinity` as the neutral stand-in for an absent
candidate. -/
theorem foldl_jsMin_gated (acc : JSNum) (c : Bool) (v : JSNum) (rest : List JSNum) :
    List.foldl jsMin acc ((if c then [v] else []) ++ rest) =
      List.foldl jsMin (jsMin acc (if c then v else .posInf)) rest := by
  cases c
  · simp [jsMin_posInf_right]
  · simp [List.foldl_cons]

/-- The code's effective target (fold of `Math.min` over the filtered
candidate array) equals the specification-side nested minimum. -/
theorem effectiveTarget_eq (ts : JSNum) (e : MediaElement) :
    jsMinList ((candidateTimes ts e).filter JSNum.isFinite) =
      specEffectiveTarget ts e := by
  have hgd : ((toFinite e.duration).isFinite &&
      JSNum.jsLe (.fin 0) (toFinite e.duration)) = true →
      (toFinite e.duration).isFinite = true := by
    intro h
    simp only [Bool.and_eq_true] at h
    exact h.1
  have hgb : ((pickLatestBufferedTime e.bufferedEnds).isFinite &&
      JSNum.jsLe (.fin 0) (pickLatestBufferedTime e.bufferedEnds)) = true →
      (pickLatestBufferedTime e.bufferedEnds).isFinite = true := by
    intro h
    simp only [Bool.and_eq_true] at h
    exact h.1
  have hgn : naturalFrameIsReady e = true →
      (toFinite e.currentTime).isFinite = true := by
    intro h
    simp only [naturalFrameIsReady, Bool.and_eq_true] at h
    exact h.1.1.1
  rw [show candidateTimes ts e = [ts] ++
      ((if (toFinite e.duration).isFinite &&
          JSNum.jsLe (.fin 0) (toFinite e.duration) then [toFinite e.duration] else []) ++
      ((if (pickLatestBufferedTime e.bufferedEnds).isFinite &&
          JSNum.jsLe (.fin 0) (pickLatestBufferedTime e.bufferedEnds) then
        [pickLatestBufferedTime e.bufferedEnds] else []) ++
      ((if naturalFrameIsReady e then [toFinite e.currentTime] else []) ++ [])))
    from by simp [candidateTimes]]
  rw [List.filter_append, List.filter_append, List.filter_append, List.filter_append]
  rw [filter_single, filter_gated _ _ hgd, filter_gated _ _ hgb, filter_gated _ _ hgn]
  show List.foldl jsMin .posInf _ = _
  rw [foldl_jsMin_gated, foldl_jsMin_gated, foldl_jsMin_gated, foldl_jsMin_gated]
  simp only [List.filter_nil, List.foldl_nil, jsMin_posInf_left, jsMin_assoc,
    specEffectiveTarget]

/-- A 5000 ms target resolves to 5 s. -/
theorem targetSeconds_5000 : JSNum.jsMax0 (jsDiv1000 (.fin 5000)) = .fin 5 := by
  show JSNum.jsMax0 (.fin (5000 / 1000)) = .fin 5
  rw [show (5000 : ℚ) / 1000 = 5 from by norm_num]
  show JSNum.fin (max 0 5) = .fin 5
  rw [max_eq_right (by norm_num : (0 : ℚ) ≤ 5)]

/-- C3 counterexample: for the element `mediaElemCx` (metadata loaded,
duration 10 s, buffered to 10 s, paused at 0 with a ready frame) and target
5000 ms, the claim demands a seek to `min(5, 10, 10) = 5` s, but the code
also admits the element's current time as a candidate and therefore leaves
the element at 0 s. -/
theorem synchronizeMediaPlayback_counterexample :
    1 ≤ mediaElemCx.readyState ∧
    claimEffectiveTarget (JSNum.jsMax0 (jsDiv1000 (.fin 5000))) mediaElemCx = .fin 5 ∧
    (synchronizeMediaPlayback (.fin 5000) [mediaElemCx]).map (fun e => e.currentTime) =
      [.fin 0] ∧
    (synchronizeMediaPlayback (.fin 5000) [mediaElemCx]).map (fun e => e.currentTime) ≠
      [.fin 5] := by
  have hsync : synchronizeMediaPlayback (.fin 5000) [mediaElemCx] =
      [alignElement (.fin 5) mediaElemCx] := by
    simp only [synchronizeMediaPlayback]
    rw [if_neg (by decide), targetSeconds_5000]
    simp only [List.map_cons, List.map_nil]
    rw [if_pos (by decide)]
  have hnat : toFinite mediaElemCx.currentTime = .fin 0 := by decide
  have hsub : jsSub (.fin 0) (.fin 0) = .fin 0 := by
    show JSNum.fin (0 - 0) = .fin 0
    norm_num
  have habs : jsAbs (.fin 0) = .fin 0 := by
    show JSNum.fin |(0 : ℚ)| = .fin 0
    norm_num
  have hlt : JSNum.jsLt (.fin mediaEpsilon) (.fin 0) = false := by
    simp only [JSNum.jsLt, decide_eq_false_iff_not, not_lt, mediaEpsilon]
    norm_num
  have hspec : specEffectiveTarget (.fin 5) mediaElemCx = .fin 0 := by decide
  have halign : alignElement (.fin 5) mediaElemCx = mediaElemCx := by
    simp only [alignElement, effectiveTarget_eq, hspec, hnat, hsub, habs, hlt,
      JSNum.isFinite]
    decide
  refine ⟨by decide, ?_, ?_, ?_⟩
  · rw [targetSeconds_5000]
    decide
  · rw [hsync, halign]
    decide
  · rw [hsync, halign]
    decide

/-- C3 amended: for a non-negative finite target and a media element whose
metadata is loaded, `synchronizeMediaPlayback` aligns the element: it is
left paused, and its position becomes the effective target — the minimum of
the requested target in seconds, the duration, the latest buffered extent,
and (when the element already reports a ready frame while paused or ended)
its current time — except that the seek is skipped, keeping the old
position, when the current time is already within 1/120 s of that target;
elements whose effective target resolves to nothing finite are left as they
are. -/
theorem synchronizeMediaPlayback_amended (q : ℚ) (e : MediaElement)
    (hq : 0 ≤ q) (hm : 1 ≤ e.readyState)
    (heff : (specEffectiveTarget (JSNum.jsMax0 (jsDiv1000 (.fin q))) e).isFinite = true) :
    synchronizeMediaPlayback (.fin q) [e] =
      [alignElement (JSNum.jsMax0 (jsDiv1000 (.fin q))) e] ∧
    (alignElement (JSNum.jsMax0 (jsDiv1000 (.fin q))) e).paused = true ∧
    (alignElement (JSNum.jsMax0 (jsDiv1000 (.fin q))) e).currentTime =
      (if ((toFinite e.currentTime).isFinite = true ∧
          JSNum.jsLt (.fin mediaEpsilon)
            (jsAbs (jsSub (toFinite e.currentTime)
              (specEffectiveTarget (JSNum.jsMax0 (jsDiv1000 (.fin q))) e))) = false)
        then e.currentTime
        else specEffectiveTarget (JSNum.jsMax0 (jsDiv1000 (.fin q))) e) := by
  refine ⟨?_, ?_, ?_⟩
  · simp only [synchronizeMediaPlayback]
    rw [if_neg (by simp only [JSNum.jsLt, decide_eq_true_eq]; exact not_lt.2 hq)]
    simp only [List.map_cons, List.map_nil]
    rw [if_pos hm]
  · simp only [alignElement, effectiveTarget_eq]
    rw [if_neg (by simp [heff])]
  · simp only [alignElement, effectiveTarget_eq]
    rw [if_neg (by simp [heff])]
    split
    · rename_i h
      have hcond : ¬ ((toFinite e.currentTime).isFinite = true ∧
          JSNum.jsLt (.fin mediaEpsilon)
            (jsAbs (jsSub (toFinite e.currentTime)
              (specEffectiveTarget (JSNum.jsMax0 (jsDiv1000 (.fin q))) e))) = false) := by
        rintro ⟨hf, hl⟩
        simp only [Bool.or_eq_true, decide_eq_true_eq] at h
        rcases h with h | h
        · exact h hf
        · rw [h] at hl
          cases hl
      rw [if_neg hcond]
    · rename_i h
      simp only [Bool.or_eq_true, decide_eq_true_eq, not_or] at h
      have hf : (toFinite e.currentTime).isFinite = true := not_not.mp h.1
      have hl : JSNum.jsLt (.fin mediaEpsilon)
          (jsAbs (jsSub (toFinite e.currentTime)
            (specEffectiveTarget (JSNum.jsMax0 (jsDiv1000 (.fin q))) e))) = false := by
        simpa using h.2
      rw [if_pos ⟨hf, hl⟩]

/-- C3 amended witness element: metadata loaded, 10 s duration, 2 s
buffered, playing at 0. -/
def mediaElemW : MediaElement :=
  MediaElement.mk 1 (.fin 10) (.fin 0) false false [.fin 2]

/-- Witness for the amended C3 at target 5000 ms on `mediaElemW`. -/
theorem synchronizeMediaPlayback_amended_witness :
    ((0 : ℚ) ≤ 5000 ∧ 1 ≤ mediaElemW.readyState ∧
      (specEffectiveTarget (JSNum.jsMax0 (jsDiv1000 (.fin 5000))) mediaElemW).isFinite =
        true) ∧
    (synchronizeMediaPlayback (.fin 5000) [mediaElemW] =
      [alignElement (JSNum.jsMax0 (jsDiv1000 (.fin 5000))) mediaElemW] ∧
    (alignElement (JSNum.jsMax0 (jsDiv1000 (.fin 5000))) mediaElemW).paused = true ∧
    (alignElement (JSNum.jsMax0 (jsDiv1000 (.fin 5000))) mediaElemW).currentTime =
      (if ((toFinite mediaElemW.currentTime).isFinite = true ∧
          JSNum.jsLt (.fin mediaEpsilon)
            (jsAbs (jsSub (toFinite mediaElemW.currentTime)
              (specEffectiveTarget (JSNum.jsMax0 (jsDiv1000 (.fin 5000))) mediaElemW))) =
            false)
        then mediaElemW.currentTime
        else specEffectiveTarget (JSNum.jsMax0 (jsDiv1000 (.fin 5000))) mediaElemW)) := by
  have heff : (specEffectiveTarget (JSNum.jsMax0 (jsDiv1000 (.fin 5000)))
      mediaElemW).isFinite = true := by
    rw [targetSeconds_5000]
    decide
  exact ⟨⟨by norm_num, by decide, heff⟩,
    synchronizeMediaPlayback_amended 5000 mediaElemW (by norm_num) (by decide) heff⟩
